import Mathlib

/-!
Comment walker of gen-docs (build_ast.go)

A shallow embedding of the path walker that resolves protobuf source-location
paths to name chains, and of the collector that forwards the chains to the
documentation tree.

Modelling conventions
* A Go reflect.Value is a value of the inductive type Value, one constructor per
  kind that the walker distinguishes.  The struct tag of a field is kept as the
  string returned by Tag.Get("protobuf"), the empty string when the key is absent.
* A Go panic is the error side of Except Panic.  An error value returned by a Go
  function is kept as data (GoError) next to the other results.
* The depth argument and the log calls only feed the diagnostic log and are left out.
* A path entry is an int32 that is only ever compared, so it is an Int.
* len on a Go string counts bytes, hence utf8ByteSize.
-/

namespace CommentWalker

/-! ## Data model -/

/-- One declared field of a Go struct as seen through reflection: the Go field
name, the value of the protobuf key of its struct tag, and the field value. -/
structure StructField (V : Type) where
  name : String
  tag : String
  value : V

/-- A reflect.Value, by kind.  A nil pointer is ptr none.  The zero Value, which
Elem yields on a nil pointer, is invalid.  Every kind that the walker does not
single out (integers, booleans, arrays, and so on) is other. -/
inductive Value where
  | str (s : String)
  | ptr (elem : Option Value)
  | struct (fields : List (StructField Value))
  | slice (elems : List Value)
  | other
  | invalid

/-- An error value built by fmt.Errorf in getProtobufField. -/
inductive GoError where
  | notFound (proto_field : Int)
  deriving DecidableEq, Repr

/-- The ways the walker can panic. -/
inductive Panic where
  /-- The panic "walkNextStruct expected struct, found ...". -/
  | expectedStruct
  /-- The panic(err) that follows a failed getProtobufField. -/
  | err (e : GoError)
  /-- The panic "Comment somehow attached to a field label, time to panic!". -/
  | fieldLabel
  /-- The panic raised by getCollectionIndex. -/
  | collectionIndex
  /-- A panic raised by the Go runtime or by package reflect: a nil dereference,
  a failed type assertion, an index out of range, a reflect call on a wrong kind. -/
  | runtime
  deriving DecidableEq, Repr

/-! ## Go library functions used by the walker -/

/-- The Go builtin len on a string: the number of bytes. -/
def goLen (s : String) : Nat := s.utf8ByteSize

/-- Splitting a character list at every occurrence of a separator. -/
def splitChars (sep : Char) : List Char → List (List Char)
  | [] => [[]]
  | c :: cs =>
    if c = sep then [] :: splitChars sep cs
    else
      match splitChars sep cs with
      | [] => [[c]]
      | p :: ps => (c :: p) :: ps

/-- The Go function strings.Split for a one-character separator. -/
def stringsSplit (s : String) (sep : Char) : List String :=
  (splitChars sep s.data).map String.mk

/-- The value of a string of decimal digits. -/
def digitsValue (ds : List Char) : Nat :=
  ds.foldl (fun n c => 10 * n + (c.toNat - 48)) 0

/-- The integer returned by strconv.Atoi on a 64-bit platform.  The error result is
dropped, as the caller does: a malformed number gives 0, a range error gives the
nearest representable value. -/
def strconvAtoi (s : String) : Int :=
  let neg := s.data.head? = some '-'
  let ds := match s.data with
    | '+' :: r => r
    | '-' :: r => r
    | r => r
  if ds.isEmpty || !(ds.all Char.isDigit) then 0
  else
    let v := digitsValue ds
    if neg then (if v > 2 ^ 63 then -(2 ^ 63 : Int) else -(v : Int))
    else (if v ≥ 2 ^ 63 then (2 ^ 63 - 1 : Int) else (v : Int))

/-! ## Schema field resolver -/

/-- Parses a protobuf string to return the label of the field, if it exists. -/
def protoFieldLabel (proto_tag : String) : String :=
  let comma_split := stringsSplit proto_tag ','
  if comma_split.length > 3 then
    let eq_split := stringsSplit (comma_split.getD 3 "") '='
    if eq_split.length > 1 then eq_split.getD 1 "" else ""
  else ""

/-- The variable pfield_n of getProtobufField for one field: -1 when the field has
no protobuf tag, else Atoi of the second comma-separated part of the tag.  Indexing
the second part of a tag without a comma is a runtime panic. -/
def pfieldN (tag : String) : Except Panic Int :=
  if goLen tag ≠ 0 then
    match (stringsSplit tag ',')[1]? with
    | some part => .ok (strconvAtoi part)
    | none => .error .runtime
  else .ok (-1)

/-- The loop of getProtobufField over the declared fields, in declaration order. -/
def getProtobufFieldLoop (proto_field : Int) (proto_msg : Value) :
    List (StructField Value) → Except Panic (Value × String × Option GoError)
  | [] => .ok (proto_msg, "", some (.notFound proto_field))
  | typeField :: more =>
    let tag := typeField.tag
    let field_label := protoFieldLabel tag
    match pfieldN tag with
    | .error p => .error p
    | .ok pfield_n =>
      if pfield_n ≠ -1 ∧ pfield_n = proto_field then
        .ok (typeField.value, field_label, none)
      else getProtobufFieldLoop proto_field proto_msg more

/-- Returns the requested protobuf message field.  The Go result triple
(field, label, err) is kept as is.  Asking the type of a value that is not a struct
for its fields is a reflect panic. -/
def getProtobufField (proto_field : Int) (proto_msg : Value) :
    Except Panic (Value × String × Option GoError) :=
  match proto_msg with
  | .struct fields => getProtobufFieldLoop proto_field proto_msg fields
  | _ => .error .runtime

/-! ## Path walker -/

/-- The length of a slice value (only called on slices by the walker). -/
def Value.len : Value → Nat
  | .slice elems => elems.length
  | _ => 0

/-- Whether the kind of a value is reflect.Slice. -/
def Value.isSlice : Value → Bool
  | .slice _ => true
  | _ => false

/-- The call node.Index(index) of package reflect on a slice. -/
def Value.index (node : Value) (index : Int) : Except Panic Value :=
  match node with
  | .slice elems =>
    if index < 0 then .error .runtime
    else
      match elems[index.toNat]? with
      | some v => .ok v
      | none => .error .runtime
  | _ => .error .runtime

/-- The function getCollectionIndex. -/
def getCollectionIndex (node : Value) (index : Int) : Except Panic Value :=
  if index ≥ (node.len : Int) then .error .collectionIndex
  else node.index index

/-- The expression *node.FieldByName("Name").Interface().(*string): the field
named Name has to be a non-nil pointer to a string. -/
def structName (fields : List (StructField Value)) : Except Panic String :=
  match fields.find? (fun fld => fld.name == "Name") with
  | some fld =>
    match fld.value with
    | .ptr (some (.str s)) => .ok s
    | _ => .error .runtime
  | none => .error .runtime

/-- The opening switch of walkNextStruct: the pair (st_name, node) it leaves
behind.  A pointer is replaced by what it points to and st_name keeps its zero
value, the empty string. -/
def nameSwitch (node : Value) : Except Panic (String × Value) :=
  match node with
  | .str s => .ok (s, node)
  | .ptr (some target) => .ok ("", target)
  | .ptr none => .ok ("", .invalid)
  | .struct fields =>
    match structName fields with
    | .ok st_name => .ok (st_name, node)
    | .error p => .error p
  | _ => .error .expectedStruct

/-- The dereference of the selected element: clean_next. -/
def cleanNext (next_node : Value) : Value :=
  match next_node with
  | .ptr (some target) => target
  | .ptr none => .invalid
  | _ => next_node

/-- The function walkNextStruct.  The recursion is on the path, so the test for
the empty path is the outer match. The opening switch runs first in both cases. -/
def walkNextStruct : List Int → Value → Except Panic (List String)
  | [], node =>
    match nameSwitch node with
    | .error p => .error p
    | .ok (st_name, _) => .ok [st_name]
  | path0 :: path1, node =>
    match nameSwitch node with
    | .error p => .error p
    | .ok (st_name, node) =>
      match getProtobufField path0 node with
      | .error p => .error p
      | .ok (_, _, some e) => .error (.err e)
      | .ok (field, _, none) =>
        match path1 with
        | [] => .error .fieldLabel
        | path1head :: path2 =>
          if !field.isSlice then
            match walkNextStruct (path1head :: path2) field with
            | .error p => .error p
            | .ok rv => .ok (st_name :: rv)
          else if path1head ≥ (field.len : Int) then .ok [""]
          else
            match getCollectionIndex field path1head with
            | .error p => .error p
            | .ok next_node =>
              match walkNextStruct path2 (cleanNext next_node) with
              | .error p => .error p
              | .ok rv => .ok (st_name :: rv)

/-! ## Comment collector -/

/-- A source-location record (SourceCodeInfo_Location): the path, the optional
leading comment, the leading detached comments. -/
structure Location where
  Path : List Int
  LeadingComments : Option String
  LeadingDetachedComments : List String

/-- The getter GetLeadingComments: the empty string when the attribute is unset. -/
def Location.GetLeadingComments (location : Location) : String :=
  location.LeadingComments.getD ""

/-- A file of the request (FileDescriptorProto): its optional name, its optional
source code info, and the struct that reflect.ValueOf(*file) yields. In a run of
the program the field Name of that struct points to the same name. -/
structure FileDescriptorProto where
  Name : Option String
  SourceCodeInfo : Option (List Location)
  reflected : Value

/-- The getter GetName: the empty string when the name is unset. -/
def FileDescriptorProto.GetName (file : FileDescriptorProto) : String :=
  file.Name.getD ""

/-- The locations reached by file.GetSourceCodeInfo().GetLocation(): none when the
source code info is unset. -/
def FileDescriptorProto.locations (file : FileDescriptorProto) : List Location :=
  file.SourceCodeInfo.getD []

/-- The request handed to associate_comments. -/
structure CodeGeneratorRequest where
  FileToGenerate : List String
  ProtoFile : List FileDescriptorProto

/-- Modelled from the spec: the documentation tree (package doctree) is consumed
through attachComment only, so it is the list of the SetComment calls made on it,
in order.  Next to it the run keeps the list of the walker invocations, each with
its path and root, which the program shows in its diagnostic log. -/
structure DocTree where
  comments : List (List String × String)
  walks : List (List Int × Value)

/-- The call dt.SetComment(name_path, lead). -/
def DocTree.SetComment (dt : DocTree) (name_path : List String) (lead : String) : DocTree :=
  { dt with comments := dt.comments ++ [(name_path, lead)] }

/-- Bookkeeping of one walker invocation. -/
def DocTree.noteWalk (dt : DocTree) (path : List Int) (root : Value) : DocTree :=
  { dt with walks := dt.walks ++ [(path, root)] }

/-- The body of the loop over the locations of one file. -/
def processLocation (file : FileDescriptorProto) (dt : DocTree) (location : Location) :
    Except Panic DocTree :=
  let lead := location.GetLeadingComments
  if goLen lead > 1 ∨ location.LeadingDetachedComments.length > 1 then
    match walkNextStruct location.Path file.reflected with
    | .error p => .error p
    | .ok name_path =>
      .ok ((dt.noteWalk location.Path file.reflected).SetComment name_path lead)
  else .ok dt

/-- The loop over the locations of one file; a panic ends the run. -/
def processLocations (file : FileDescriptorProto) : DocTree → List Location → Except Panic DocTree
  | dt, [] => .ok dt
  | dt, location :: more =>
    match processLocation file dt location with
    | .error p => .error p
    | .ok dt1 => processLocations file dt1 more

/-- The flag skip after the loop over FileToGenerate. -/
def skipFlag (FileToGenerate : List String) (name : String) : Bool :=
  FileToGenerate.foldl (fun skip gen => if name = gen then false else skip) true

/-- The body of the loop over the files of the request. -/
def processFile (FileToGenerate : List String) (dt : DocTree) (file : FileDescriptorProto) :
    Except Panic DocTree :=
  if skipFlag FileToGenerate file.GetName then .ok dt
  else processLocations file dt file.locations

/-- The loop over the files of the request; a panic ends the run. -/
def processFiles (FileToGenerate : List String) : DocTree → List FileDescriptorProto → Except Panic DocTree
  | dt, [] => .ok dt
  | dt, file :: more =>
    match processFile FileToGenerate dt file with
    | .error p => .error p
    | .ok dt1 => processFiles FileToGenerate dt1 more

/-- The function associate_comments. -/
def associate_comments (dt : DocTree) (req : CodeGeneratorRequest) : Except Panic DocTree :=
  processFiles req.FileToGenerate dt req.ProtoFile

/-! ## The scenario of the specification -/

/-- A string attribute of a generated message: a pointer to a string. -/
def strAttr (name : String) (tag : String) (s : String) : StructField Value :=
  ⟨name, tag, .ptr (some (.str s))⟩

/-- The field id of message Order: a struct with those fields of a
FieldDescriptorProto that the scenario uses. -/
def idField : Value :=
  .struct [strAttr "Name" "bytes,1,opt,name=name" "id",
    ⟨"XXX_unrecognized", "", .slice []⟩]

/-- The message Order with one field: a struct with those fields of a
DescriptorProto that the scenario uses. -/
def orderMessage : Value :=
  .struct [strAttr "Name" "bytes,1,opt,name=name" "Order",
    ⟨"Field", "bytes,2,rep,name=field", .slice [.ptr (some idField)]⟩,
    ⟨"Options", "bytes,7,opt,name=options", .ptr none⟩,
    ⟨"XXX_unrecognized", "", .slice []⟩]

/-- The declared fields of the root of the file named OrderFile: those fields of a
FileDescriptorProto that the scenario uses. -/
def orderFileFields : List (StructField Value) :=
  [strAttr "Name" "bytes,1,opt,name=name" "OrderFile",
    strAttr "Package" "bytes,2,opt,name=package" "shop",
    ⟨"Dependency", "bytes,3,rep,name=dependency", .slice []⟩,
    ⟨"MessageType", "bytes,4,rep,name=message_type,json=messageType",
      .slice [.ptr (some orderMessage)]⟩,
    ⟨"XXX_unrecognized", "", .slice []⟩]

/-- The root struct of the file named OrderFile, with one message. -/
def orderFile : Value := .struct orderFileFields

/-! ## Notions used to state the properties of the resolver and the walker -/

/-- The protobuf field number that a declared field carries: none for a field
without protobuf tag (or with a tag that has no second part), else the number
read from the second comma-separated part. -/
def tagNumber (tag : String) : Option Int :=
  if goLen tag ≠ 0 then ((stringsSplit tag ',')[1]?).map strconvAtoi else none

/-- A declared field is well tagged when it has no protobuf tag, or its tag has a
second part whose number is not the reserved value -1 (protobuf field numbers
are positive). -/
def wellTagged (tag : String) : Bool :=
  goLen tag == 0 ||
    match tagNumber tag with
    | some n => n != -1
    | none => false

/-- The name attribute of a node: a string terminal is its own name, a struct has
the string its Name field points to. Pointers, slices and other values have none. -/
def displayName : Value → Option String
  | .str s => some s
  | .struct fields =>
    match structName fields with
    | .ok s => some s
    | .error _ => none
  | _ => none

/-- The repeated collection that a field number resolves to on a node, if any. -/
def repeatedField (f : Int) (node : Value) : Option (List Value) :=
  match getProtobufField f node with
  | .ok (.slice elems, _, none) => some elems
  | _ => none

/-- The element of a repeated collection at an index within its length, with a
pointer element replaced by what it points to. -/
def elementAt (elems : List Value) (i : Int) : Option Value :=
  if i < 0 then none else elems[i.toNat]?.map cleanNext

/-- The nodes that a path of (fieldNumber, index) pairs visits from a root, in
root-to-leaf order: defined when every field number resolves on the node reached
so far to a repeated collection and every index is within its length. -/
def visited : List Int → Value → Option (List Value)
  | [], node => some [node]
  | [_], _ => none
  | f :: i :: rest, node =>
    match repeatedField f node with
    | none => none
    | some elems =>
      match elementAt elems i with
      | none => none
      | some next =>
        match visited rest next with
        | none => none
        | some nodes => some (node :: nodes)

/-- Whether every (fieldNumber, index) pair of a path resolves on the node reached
so far to a repeated collection with the index within its length. A last
coordinate without a partner is not looked at. -/
def pairsInRange : List Int → Value → Bool
  | f :: i :: rest, node =>
    match repeatedField f node with
    | none => false
    | some elems =>
      match elementAt elems i with
      | none => false
      | some next => pairsInRange rest next
  | _, _ => true

/-- Whether the walk of a path from a node ends with the out-of-bounds outcome: it
reaches, without a panic, a repeated collection whose length the next index is not
below. The walker itself does not keep this reason. -/
def endsOutOfBounds : List Int → Value → Bool
  | f :: i :: rest, node =>
    match nameSwitch node with
    | .error _ => false
    | .ok (_, node) =>
      match getProtobufField f node with
      | .ok (field, _, none) =>
        if !field.isSlice then endsOutOfBounds (i :: rest) field
        else if i ≥ (field.len : Int) then true
        else
          match getCollectionIndex field i with
          | .error _ => false
          | .ok next_node => endsOutOfBounds rest (cleanNext next_node)
      | _ => false
  | _, _ => false

/-- The run that handles the locations of every file of a list once, in order,
with no test on the file name. -/
def processEvery : DocTree → List FileDescriptorProto → Except Panic DocTree
  | dt, [] => .ok dt
  | dt, file :: more =>
    match processLocations file dt file.locations with
    | .error p => .error p
    | .ok dt1 => processEvery dt1 more

/-- The documentation tree before any call. -/
def emptyTree : DocTree := ⟨[], []⟩

/-- A commented location of the scenario: the field id of message Order. -/
def idLocation : Location := ⟨[4, 0, 2, 0], some " the order id\n", []⟩

/-- A commented location whose index 5 is beyond the single field of Order. -/
def staleLocation : Location := ⟨[4, 0, 2, 5], some " a stale comment\n", []⟩

/-- A location without leading comment and with two empty detached comments. -/
def twoDetachedLocation : Location := ⟨[4, 0], none, ["", ""]⟩

/-- A location without leading comment and with one detached comment. -/
def oneDetachedLocation : Location := ⟨[4, 0], none, [" a detached note\n"]⟩

/-- A location without comments whose path the walker would reject. -/
def bareLocation : Location := ⟨[9], none, []⟩

/-- A location whose leading comment and single detached comment are one line
break each, and whose path the walker would reject. -/
def blankLocation : Location := ⟨[9], some "\n", ["\n"]⟩

/-- The file of the scenario, named OrderFile as its root struct is, with the given
locations. -/
def fileWith (locations : List Location) : FileDescriptorProto :=
  ⟨some "OrderFile", some locations, orderFile⟩

/-- The root struct of a dependency named DepFile, with the same message. -/
def depRoot : Value :=
  .struct [strAttr "Name" "bytes,1,opt,name=name" "DepFile",
    ⟨"MessageType", "bytes,4,rep,name=message_type,json=messageType",
      .slice [.ptr (some orderMessage)]⟩,
    ⟨"XXX_unrecognized", "", .slice []⟩]

/-- A dependency outside the generate set, with a commented location whose path the
walker would reject and the commented location of the scenario. -/
def depFile : FileDescriptorProto :=
  ⟨some "DepFile", some [⟨[9], some " a comment\n", []⟩, idLocation], depRoot⟩

theorem tagNumber_of_wellTagged (tag : String) (h : wellTagged tag = true) :
    (pfieldN tag = .ok (-1) ∧ tagNumber tag = none) ∨
    (∃ n : Int, n ≠ -1 ∧ pfieldN tag = .ok n ∧ tagNumber tag = some n) := by
  by_cases h0 : goLen tag = 0
  · left
    simp [pfieldN, tagNumber, h0]
  · right
    cases hp : (stringsSplit tag ',')[1]? with
    | none => simp [wellTagged, tagNumber, h0, hp] at h
    | some part =>
      have hne : strconvAtoi part ≠ -1 := by
        simpa [wellTagged, tagNumber, h0, hp] using h
      refine ⟨strconvAtoi part, hne, ?_, ?_⟩
      · simp [pfieldN, h0, hp]
      · simp [tagNumber, h0, hp]

theorem getProtobufFieldLoop_find (proto_field : Int) (proto_msg : Value)
    (fields : List (StructField Value))
    (hwf : ∀ fld ∈ fields, wellTagged fld.tag = true) :
    getProtobufFieldLoop proto_field proto_msg fields =
      match fields.find? (fun fld => tagNumber fld.tag == some proto_field) with
      | some fld => .ok (fld.value, protoFieldLabel fld.tag, none)
      | none => .ok (proto_msg, "", some (.notFound proto_field)) := by
  induction fields with
  | nil => rfl
  | cons fld more ih =>
    have ih1 := ih (fun x hx => hwf x (List.mem_cons_of_mem _ hx))
    rcases tagNumber_of_wellTagged fld.tag (hwf fld (List.mem_cons_self _ _)) with
      ⟨hp, ht⟩ | ⟨n, hn, hp, ht⟩
    · have hb : (tagNumber fld.tag == some proto_field) = false := by simp [ht]
      rw [List.find?_cons, hb]
      simp only [getProtobufFieldLoop, hp, ne_eq, not_true_eq_false, false_and, if_false]
      exact ih1
    · by_cases hnf : n = proto_field
      · subst hnf
        have hb : (tagNumber fld.tag == some n) = true := by simp [ht]
        rw [List.find?_cons, hb]
        simp only [getProtobufFieldLoop, hp, ne_eq, hn, not_false_eq_true, and_self, if_true]
      · have hb : (tagNumber fld.tag == some proto_field) = false := by simp [ht, hnf]
        rw [List.find?_cons, hb]
        simp only [getProtobufFieldLoop, hp, ne_eq, hnf, and_false, if_false]
        exact ih1

/-- C3. For every struct node whose declared fields are well tagged and every field
number, getProtobufField returns the slot value and the label of the first declared
field, in declaration order, whose protobuf tag number equals the requested number,
and it returns the error "Couldn't find a proto field" exactly when no declared
field carries that number. A field without protobuf tag never matches. -/
theorem getProtobufField_first_match (proto_field : Int) (fields : List (StructField Value))
    (hwf : ∀ fld ∈ fields, wellTagged fld.tag = true) :
    getProtobufField proto_field (.struct fields) =
      (match fields.find? (fun fld => tagNumber fld.tag == some proto_field) with
       | some fld => .ok (fld.value, protoFieldLabel fld.tag, none)
       | none => .ok (.struct fields, "", some (.notFound proto_field)))
    ∧ ((∃ v l, getProtobufField proto_field (.struct fields)
          = .ok (v, l, some (.notFound proto_field)))
        ↔ ∀ fld ∈ fields, tagNumber fld.tag ≠ some proto_field) := by
  have key := getProtobufFieldLoop_find proto_field (.struct fields) fields hwf
  have hdef : getProtobufField proto_field (.struct fields)
      = getProtobufFieldLoop proto_field (.struct fields) fields := rfl
  rw [hdef, key]
  refine ⟨rfl, ?_⟩
  cases hfind : fields.find? (fun fld => tagNumber fld.tag == some proto_field) with
  | none =>
    simp only [List.find?_eq_none] at hfind
    constructor
    · intro _ fld hmem
      simpa using hfind fld hmem
    · intro _
      exact ⟨_, _, rfl⟩
  | some fld =>
    have hmem := List.mem_of_find?_eq_some hfind
    have hp := List.find?_some hfind
    constructor
    · rintro ⟨v, l, h⟩
      simp at h
    · intro hall
      exact absurd (by simpa using hp) (hall fld hmem)

theorem repeatedField_struct (f : Int) (node : Value) (elems : List Value)
    (h : repeatedField f node = some elems) :
    (∃ fields, node = .struct fields) ∧
    ∃ label, getProtobufField f node = .ok (.slice elems, label, none) := by
  unfold repeatedField at h
  constructor
  · cases node with
    | struct fields => exact ⟨fields, rfl⟩
    | _ => simp [getProtobufField] at h
  · split at h
    · rename_i es label heq
      simp only [Option.some.injEq] at h
      subst h
      exact ⟨label, heq⟩
    · simp at h

theorem elementAt_index (elems : List Value) (i : Int) (next : Value)
    (h : elementAt elems i = some next) :
    ¬ (i ≥ ((Value.slice elems).len : Int)) ∧
    ∃ next_node, getCollectionIndex (.slice elems) i = .ok next_node ∧
      cleanNext next_node = next := by
  unfold elementAt at h
  by_cases hneg : i < 0
  · simp [hneg] at h
  · simp only [hneg, if_false, Option.map_eq_some'] at h
    obtain ⟨v, hv, hc⟩ := h
    have hlt : i.toNat < elems.length := by
      rcases Nat.lt_or_ge i.toNat elems.length with hlt | hge
      · exact hlt
      · rw [List.getElem?_eq_none hge] at hv
        simp at hv
    have hlt2 : i < (elems.length : Int) := by omega
    constructor
    · simp only [Value.len]
      omega
    · refine ⟨v, ?_, hc⟩
      simp only [getCollectionIndex, Value.len, Value.index, hneg, if_false, hv]
      simp [hlt2]

theorem walkNextStruct_repeated_step (f i : Int) (rest : List Int) (node next : Value)
    (elems : List Value)
    (hrf : repeatedField f node = some elems) (hel : elementAt elems i = some next) :
    walkNextStruct (f :: i :: rest) node =
      match nameSwitch node with
      | .error p => .error p
      | .ok (st_name, _) =>
        match walkNextStruct rest next with
        | .error p => .error p
        | .ok rv => .ok (st_name :: rv) := by
  obtain ⟨⟨fields, hnode⟩, label, hget⟩ := repeatedField_struct f node elems hrf
  obtain ⟨hlen, next_node, hidx, hclean⟩ := elementAt_index elems i next hel
  subst hnode
  cases hs : structName fields with
  | error p => simp [walkNextStruct, nameSwitch, hs]
  | ok st_name =>
    simp only [walkNextStruct, nameSwitch, hs, hget, Value.isSlice, Bool.not_true,
      Bool.false_eq_true, if_false, hlen, hidx, hclean]

theorem nameSwitch_named (node : Value) (name : String) (h : displayName node = some name) :
    nameSwitch node = .ok (name, node) := by
  cases node with
  | str s =>
    simp only [displayName, Option.some.injEq] at h
    simp [nameSwitch, h]
  | struct fields =>
    simp only [displayName] at h
    cases hs : structName fields with
    | error p => simp [hs] at h
    | ok s =>
      simp only [hs, Option.some.injEq] at h
      simp [nameSwitch, hs, h]
  | _ => simp [displayName] at h

theorem visited_chain (path : List Int) (root : Value) :
    ∀ nodes, visited path root = some nodes →
      nodes.all (fun n => (displayName n).isSome) = true →
      ∃ chain, walkNextStruct path root = .ok chain ∧
        chain.map some = nodes.map displayName ∧
        nodes.head? = some root ∧ nodes.length = path.length / 2 + 1 := by
  induction path, root using visited.induct with
  | case1 node =>
    intro nodes hv hn
    simp only [visited, Option.some.injEq] at hv
    subst hv
    simp only [List.all_cons, List.all_nil, Bool.and_true, Option.isSome_iff_exists] at hn
    obtain ⟨name, hname⟩ := hn
    refine ⟨[name], ?_, ?_, rfl, rfl⟩
    · simp [walkNextStruct, nameSwitch_named node name hname]
    · simp [hname]
  | case2 head x =>
    intro nodes hv
    simp [visited] at hv
  | case3 f i rest node hrf =>
    intro nodes hv
    simp [visited, hrf] at hv
  | case4 f i rest node elems hrf hel =>
    intro nodes hv
    simp [visited, hrf, hel] at hv
  | case5 f i rest node elems hrf next hel hnone _ =>
    intro nodes hv
    simp [visited, hrf, hel, hnone] at hv
  | case6 f i rest node elems hrf next hel below hbelow ih =>
    intro nodes hv hn
    simp only [visited, hrf, hel, hbelow, Option.some.injEq] at hv
    subst hv
    simp only [List.all_cons, Bool.and_eq_true, Option.isSome_iff_exists] at hn
    obtain ⟨⟨name, hname⟩, hrest⟩ := hn
    obtain ⟨chain, hwalk, hmap, _, hlen⟩ := ih below hbelow hrest
    refine ⟨name :: chain, ?_, ?_, rfl, ?_⟩
    · rw [walkNextStruct_repeated_step f i rest node next elems hrf hel,
        nameSwitch_named node name hname]
      simp [hwalk]
    · simp [hname, hmap]
    · simp only [List.length_cons, hlen]
      omega

/-- C1. For every schema tree and every path of (fieldNumber, index) pairs in which
each field number resolves on the node reached so far to a repeated collection, each
index is within the length of that collection, and every node reached has a name,
walkNextStruct returns the names of the nodes visited in root-to-leaf order: the
chain has length len(path)/2 + 1, its first element is the name of the root and its
last element is the name of the element at that position. -/
theorem walkNextStruct_round_trip (path : List Int) (root : Value) (nodes : List Value)
    (hv : visited path root = some nodes)
    (hn : nodes.all (fun n => (displayName n).isSome) = true) :
    ∃ chain, walkNextStruct path root = .ok chain ∧
      chain.map some = nodes.map displayName ∧
      chain.length = path.length / 2 + 1 ∧
      chain.head? = displayName root ∧
      chain.getLast? = nodes.getLast?.bind displayName := by
  obtain ⟨chain, hwalk, hmap, hhead, hlen⟩ := visited_chain path root nodes hv hn
  refine ⟨chain, hwalk, hmap, ?_, ?_, ?_⟩
  · have := congrArg List.length hmap
    simp only [List.length_map] at this
    omega
  · have := congrArg List.head? hmap
    simp only [List.head?_map, hhead, Option.map_some'] at this
    cases hc : chain.head? with
    | none => simp [hc] at this
    | some a =>
      simp only [hc, Option.map_some', Option.some.injEq] at this
      exact this
  · have := congrArg List.getLast? hmap
    simp only [List.getLast?_map] at this
    cases hc : chain.getLast? with
    | none =>
      cases hl : nodes.getLast? with
      | none => rfl
      | some a => simp [hc, hl] at this
    | some a =>
      cases hl : nodes.getLast? with
      | none => simp [hc, hl] at this
      | some b =>
        simp only [hc, hl, Option.map_some', Option.some.injEq] at this
        simp [this]

/-- Witness of C1: the scenario of the specification, path [4, 0, 2, 0] from
OrderFile through Order to id. -/
theorem walkNextStruct_round_trip_witness :
    visited [4, 0, 2, 0] orderFile = some [orderFile, orderMessage, idField] ∧
    [orderFile, orderMessage, idField].all (fun n => (displayName n).isSome) = true ∧
    walkNextStruct [4, 0, 2, 0] orderFile = .ok ["OrderFile", "Order", "id"] ∧
    ∃ chain, walkNextStruct [4, 0, 2, 0] orderFile = .ok chain ∧
      chain.map some = [orderFile, orderMessage, idField].map displayName ∧
      chain.length = ([4, 0, 2, 0] : List Int).length / 2 + 1 ∧
      chain.head? = displayName orderFile ∧
      chain.getLast? = [orderFile, orderMessage, idField].getLast?.bind displayName :=
  ⟨rfl, rfl, rfl,
    walkNextStruct_round_trip [4, 0, 2, 0] orderFile [orderFile, orderMessage, idField] rfl rfl⟩

/-- C2. For every named node and every path [f, i, ...rest] where f resolves on the
node to a repeated collection and i is at least the length of that collection (so
i is non-negative), walkNextStruct does not panic, in particular the panic of
getCollectionIndex is not reached, and returns exactly the single empty-name
placeholder, whatever rest is. -/
theorem walkNextStruct_out_of_bounds (node : Value) (name : String) (f i : Int)
    (rest : List Int) (elems : List Value) (label : String)
    (hname : displayName node = some name)
    (hf : getProtobufField f node = .ok (.slice elems, label, none))
    (hi : (elems.length : Int) ≤ i) :
    walkNextStruct (f :: i :: rest) node = .ok [""] := by
  rw [walkNextStruct, nameSwitch_named node name hname]
  simp [hf, Value.isSlice, Value.len, hi]

/-- Witness of C2: in the Order tree the field collection has length 1, so the
pair (2, 5) on message Order gives the placeholder, and the path [4, 0, 2, 5] from
the file returns instead of panicking. -/
theorem walkNextStruct_out_of_bounds_witness :
    displayName orderMessage = some "Order" ∧
    getProtobufField 2 orderMessage = .ok (.slice [.ptr (some idField)], "field", none) ∧
    walkNextStruct [2, 5] orderMessage = .ok [""] ∧
    walkNextStruct [4, 0, 2, 5] orderFile = .ok ["OrderFile", ""] :=
  ⟨rfl, rfl,
    walkNextStruct_out_of_bounds orderMessage "Order" 2 5 [] [.ptr (some idField)] "field"
      rfl rfl (by decide),
    rfl⟩

/-- C10. For every named struct node with well tagged fields and every non-empty
path whose first coordinate is the number of no declared field, walkNextStruct
panics with the field-not-found error and returns no chain. This also holds for a
path of exactly one coordinate: field-not-found comes before the field-label
check. -/
theorem walkNextStruct_field_not_found (fields : List (StructField Value)) (name : String)
    (path0 : Int) (path1 : List Int)
    (hname : displayName (.struct fields) = some name)
    (hwf : ∀ fld ∈ fields, wellTagged fld.tag = true)
    (hno : ∀ fld ∈ fields, tagNumber fld.tag ≠ some path0) :
    walkNextStruct (path0 :: path1) (.struct fields) = .error (.err (.notFound path0)) ∧
    walkNextStruct [path0] (.struct fields) = .error (.err (.notFound path0)) := by
  have hfind : fields.find? (fun fld => tagNumber fld.tag == some path0) = none := by
    rw [List.find?_eq_none]
    intro fld hmem
    simpa using hno fld hmem
  have hget : getProtobufField path0 (.struct fields)
      = .ok (.struct fields, "", some (.notFound path0)) := by
    have key := getProtobufFieldLoop_find path0 (.struct fields) fields hwf
    rw [hfind] at key
    exact key
  constructor
  · rw [walkNextStruct, nameSwitch_named _ name hname]
    simp [hget]
  · rw [walkNextStruct, nameSwitch_named _ name hname]
    simp [hget]

/-- Witness of C10: no declared field of OrderFile has number 9. -/
theorem walkNextStruct_field_not_found_witness :
    displayName (.struct orderFileFields) = some "OrderFile" ∧
    (∀ fld ∈ orderFileFields, wellTagged fld.tag = true) ∧
    (∀ fld ∈ orderFileFields, tagNumber fld.tag ≠ some 9) ∧
    walkNextStruct [9, 0] (.struct orderFileFields) = .error (.err (.notFound 9)) ∧
    walkNextStruct [9] (.struct orderFileFields) = .error (.err (.notFound 9)) :=
  ⟨rfl, by decide, by decide,
    walkNextStruct_field_not_found orderFileFields "OrderFile" 9 [0] rfl (by decide) (by decide)⟩

/-- Witness of C3: on OrderFile the number 4 resolves to the message collection
with label message_type, and the number 9 is reported as not found. -/
theorem getProtobufField_first_match_witness :
    (∀ fld ∈ orderFileFields, wellTagged fld.tag = true) ∧
    getProtobufField 4 (.struct orderFileFields)
      = .ok (.slice [.ptr (some orderMessage)], "message_type", none) ∧
    getProtobufField 9 (.struct orderFileFields)
      = .ok (.struct orderFileFields, "", some (.notFound 9)) ∧
    ((∃ v l, getProtobufField 9 (.struct orderFileFields) = .ok (v, l, some (.notFound 9)))
      ↔ ∀ fld ∈ orderFileFields, tagNumber fld.tag ≠ some 9) :=
  ⟨by decide, rfl, rfl, (getProtobufField_first_match 9 orderFileFields (by decide)).2⟩

theorem walkNextStruct_single_coordinate (f : Int) (node : Value) :
    ∃ p, walkNextStruct [f] node = .error p := by
  rw [walkNextStruct]
  split
  · exact ⟨_, rfl⟩
  · split
    · exact ⟨_, rfl⟩
    · exact ⟨_, rfl⟩
    · exact ⟨_, rfl⟩

/-- Counterexample of C9: the path [4, 5, 2] has odd length, yet on OrderFile the
walker returns the placeholder chain, because index 5 is beyond the single message. -/
theorem walkNextStruct_odd_path_returns :
    ([4, 5, 2] : List Int).length % 2 = 1 ∧
    walkNextStruct [4, 5, 2] orderFile = .ok [""] :=
  ⟨rfl, rfl⟩

/-- C9, amended. For every node and every path of odd length in which every
(fieldNumber, index) pair resolves on the node reached so far to a repeated
collection with the index within its length, walkNextStruct panics and returns no
name chain. Every path of exactly one coordinate is such a path. -/
theorem walkNextStruct_odd_path_panics (path : List Int) (node : Value)
    (hodd : path.length % 2 = 1) (hpairs : pairsInRange path node = true) :
    ∃ p, walkNextStruct path node = .error p := by
  induction path, node using pairsInRange.induct with
  | case1 f i rest node hrf =>
    simp [pairsInRange, hrf] at hpairs
  | case2 f i rest node elems hrf hel =>
    simp [pairsInRange, hrf, hel] at hpairs
  | case3 f i rest node elems hrf next hel ih =>
    simp only [pairsInRange, hrf, hel] at hpairs
    have hodd1 : rest.length % 2 = 1 := by
      simp only [List.length_cons] at hodd
      omega
    obtain ⟨p, hp⟩ := ih hodd1 hpairs
    rw [walkNextStruct_repeated_step f i rest node next elems hrf hel]
    split
    · exact ⟨_, rfl⟩
    · rw [hp]
      exact ⟨_, rfl⟩
  | case4 path node hnot =>
    match path, hnot with
    | [], _ => simp at hodd
    | [f], _ => exact walkNextStruct_single_coordinate f node
    | f :: i :: rest, hnot => exact absurd rfl (hnot f i rest)

/-- Witness of C9, amended: the path [4, 0, 2] stops on the field collection of
message Order, and the one-coordinate path [4] on the message collection. -/
theorem walkNextStruct_odd_path_panics_witness :
    ([4, 0, 2] : List Int).length % 2 = 1 ∧
    pairsInRange [4, 0, 2] orderFile = true ∧
    walkNextStruct [4, 0, 2] orderFile = .error .fieldLabel ∧
    walkNextStruct [4] orderFile = .error .fieldLabel ∧
    ∃ p, walkNextStruct [4, 0, 2] orderFile = .error p :=
  ⟨rfl, rfl, rfl, rfl, walkNextStruct_odd_path_panics [4, 0, 2] orderFile rfl rfl⟩

/-- C8. The walker at the failing input. The claim asks that a pointer to a named
node n yields the chain of n. With the empty path the walker returns the name of
the message Order on the message itself but the empty name on a pointer to it: the
pointer case of the opening switch dereferences and never reads the name, whereas
the elements of a repeated collection are dereferenced before the call and keep
their name. The pointer case also passes over the struct check, so a pointer to a
value of another kind returns the empty name instead of a panic, and a chain through
a singular slot holding a pointer carries the empty name at that level. -/
theorem pointer_walk_loses_name :
    displayName orderMessage = some "Order" ∧
    walkNextStruct [] orderMessage = .ok ["Order"] ∧
    walkNextStruct [] (.ptr (some orderMessage)) = .ok [""] ∧
    walkNextStruct [] (.ptr (some .other)) = .ok [""] ∧
    walkNextStruct [] .other = .error .expectedStruct ∧
    walkNextStruct [4, 0] orderFile = .ok ["OrderFile", "Order"] ∧
    walkNextStruct [6, 2, 0]
      (.struct [strAttr "Name" "bytes,1,opt,name=name" "Wrapper",
        ⟨"Inner", "bytes,6,opt,name=inner", .ptr (some orderMessage)⟩])
      = .ok ["Wrapper", "", "id"] :=
  ⟨rfl, rfl, rfl, rfl, rfl, rfl, rfl⟩

/-- The extent of the pointer defect of the opening switch: for every path and every
named node n, the call on a pointer to n resolves the path against n as the call on
n does, with the same panics, and differs only in the first name of the chain, which
is empty. -/
theorem walkNextStruct_pointer (path : List Int) (n : Value) (name : String)
    (hname : displayName n = some name) :
    walkNextStruct path (.ptr (some n)) =
      (match walkNextStruct path n with
       | .error p => .error p
       | .ok chain => .ok ("" :: chain.tail))
    ∧ walkNextStruct [] (.ptr (some n)) = .ok [""]
    ∧ ∀ (node : Value) (nodeName label : String) (f i : Int) (rest : List Int),
        displayName node = some nodeName →
        getProtobufField f node = .ok (.ptr (some n), label, none) →
        walkNextStruct (f :: i :: rest) node =
          (match walkNextStruct (i :: rest) n with
           | .error p => .error p
           | .ok chain => .ok (nodeName :: "" :: chain.tail)) := by
  have hfirst : ∀ path : List Int, walkNextStruct path (.ptr (some n)) =
      (match walkNextStruct path n with
       | .error p => .error p
       | .ok chain => .ok ("" :: chain.tail)) := by
    intro path
    cases path with
    | nil =>
      rw [walkNextStruct, walkNextStruct, nameSwitch_named n name hname]
      rfl
    | cons path0 path1 =>
      rw [walkNextStruct, walkNextStruct, nameSwitch_named n name hname]
      simp only [nameSwitch]
      split
      · rfl
      · rfl
      · split
        · rfl
        · split
          · split <;> rfl
          · split
            · rfl
            · split
              · rfl
              · split <;> rfl
  refine ⟨hfirst path, ?_, ?_⟩
  · simp [walkNextStruct, nameSwitch]
  · intro node nodeName label f i rest hnode hget
    rw [walkNextStruct, nameSwitch_named node nodeName hnode]
    simp only [hget, Value.isSlice, Bool.not_false, if_true]
    rw [hfirst (i :: rest)]
    cases hw : walkNextStruct (i :: rest) n with
    | error p => rfl
    | ok chain => rfl

/-- The pointer defect on a pointer to the message Order with the path [2, 0]. -/
theorem walkNextStruct_pointer_witness :
    displayName orderMessage = some "Order" ∧
    walkNextStruct [2, 0] orderMessage = .ok ["Order", "id"] ∧
    walkNextStruct [2, 0] (.ptr (some orderMessage)) = .ok ["", "id"] ∧
    walkNextStruct [2, 0] (.ptr (some orderMessage)) =
      (match walkNextStruct [2, 0] orderMessage with
       | .error p => .error p
       | .ok chain => .ok ("" :: chain.tail)) :=
  ⟨rfl, rfl, rfl, (walkNextStruct_pointer [2, 0] orderMessage "Order" rfl).1⟩

theorem endsOutOfBounds_chain (path : List Int) (node : Value)
    (hoob : endsOutOfBounds path node = true) :
    ∃ names, walkNextStruct path node = .ok (names ++ [""]) := by
  induction path, node using endsOutOfBounds.induct with
  | case1 f i rest node p hns =>
    simp [endsOutOfBounds, hns] at hoob
  | case2 f i rest node st_name snd hns field label hget hslice ih =>
    rw [endsOutOfBounds] at hoob
    simp only [hns, hget, hslice, if_true] at hoob
    obtain ⟨names, hw⟩ := ih hoob
    refine ⟨st_name :: names, ?_⟩
    rw [walkNextStruct]
    simp only [hns, hget, hslice, if_true, hw, List.cons_append]
  | case3 f i rest node st_name snd hns field label hget hslice hge =>
    refine ⟨[], ?_⟩
    rw [walkNextStruct]
    simp only [hns, hget, hslice, Bool.false_eq_true, if_false, hge, if_true, List.nil_append]
  | case4 f i rest node st_name snd hns field label hget hslice hge p hidx =>
    rw [endsOutOfBounds] at hoob
    simp only [hns, hget, hslice, Bool.false_eq_true, if_false, hge, hidx] at hoob
  | case5 f i rest node st_name snd hns field label hget hslice hge next_node hidx ih =>
    rw [endsOutOfBounds] at hoob
    simp only [hns, hget, hslice, Bool.false_eq_true, if_false, hge, hidx] at hoob
    obtain ⟨names, hw⟩ := ih hoob
    refine ⟨st_name :: names, ?_⟩
    rw [walkNextStruct]
    simp only [hns, hget, hslice, Bool.false_eq_true, if_false, hge, hidx, hw, List.cons_append]
  | case6 f i rest node st_name snd hns hnone =>
    rw [endsOutOfBounds] at hoob
    simp only [hns] at hoob
    exact absurd hoob (by simp)
  | case7 path node hnot =>
    rw [endsOutOfBounds] at hoob
    · exact absurd hoob (by simp)
    · exact fun f i rest h => hnot f i rest h

/-- Counterexample of C4: the stale location of the scenario ends the walk with the
out-of-bounds outcome, and associate_comments still calls SetComment for it, with
the chain that ends in the empty name. -/
theorem associate_comments_stale_record_attached :
    endsOutOfBounds staleLocation.Path orderFile = true ∧
    associate_comments emptyTree ⟨["OrderFile"], [fileWith [staleLocation]]⟩
      = .ok ⟨[(["OrderFile", ""], " a stale comment\n")], [([4, 0, 2, 5], orderFile)]⟩ :=
  ⟨rfl, rfl⟩

/-- C4, amended. When the walker ends a source-location record that carries a
comment with the out-of-bounds outcome, associate_comments does not abort: it makes
one SetComment call for the record, with the chain returned by the walker, whose
last element is the empty-name placeholder, and the leading comment, and goes on to
process the following records. -/
theorem processLocation_out_of_bounds (file : FileDescriptorProto) (dt : DocTree)
    (location : Location) (more : List Location)
    (hcomment : goLen location.GetLeadingComments > 1 ∨
      location.LeadingDetachedComments.length > 1)
    (hoob : endsOutOfBounds location.Path file.reflected = true) :
    ∃ names,
      walkNextStruct location.Path file.reflected = .ok (names ++ [""]) ∧
      processLocation file dt location =
        .ok ((dt.noteWalk location.Path file.reflected).SetComment (names ++ [""])
          location.GetLeadingComments) ∧
      processLocations file dt (location :: more) =
        processLocations file
          ((dt.noteWalk location.Path file.reflected).SetComment (names ++ [""])
            location.GetLeadingComments) more := by
  obtain ⟨names, hw⟩ := endsOutOfBounds_chain location.Path file.reflected hoob
  have hp : processLocation file dt location =
      .ok ((dt.noteWalk location.Path file.reflected).SetComment (names ++ [""])
        location.GetLeadingComments) := by
    simp only [processLocation, hcomment, if_true, hw]
  refine ⟨names, hw, hp, ?_⟩
  rw [processLocations, hp]

/-- Witness of C4, amended: the stale location followed by the location of id. -/
theorem processLocation_out_of_bounds_witness :
    (goLen staleLocation.GetLeadingComments > 1 ∨
      staleLocation.LeadingDetachedComments.length > 1) ∧
    endsOutOfBounds staleLocation.Path (fileWith []).reflected = true ∧
    processLocations (fileWith []) emptyTree [staleLocation, idLocation]
      = .ok ⟨[(["OrderFile", ""], " a stale comment\n"),
              (["OrderFile", "Order", "id"], " the order id\n")],
             [([4, 0, 2, 5], orderFile), ([4, 0, 2, 0], orderFile)]⟩ ∧
    ∃ names,
      walkNextStruct staleLocation.Path (fileWith []).reflected = .ok (names ++ [""]) ∧
      processLocation (fileWith []) emptyTree staleLocation =
        .ok ((emptyTree.noteWalk staleLocation.Path (fileWith []).reflected).SetComment
          (names ++ [""]) staleLocation.GetLeadingComments) ∧
      processLocations (fileWith []) emptyTree (staleLocation :: [idLocation]) =
        processLocations (fileWith [])
          ((emptyTree.noteWalk staleLocation.Path (fileWith []).reflected).SetComment
            (names ++ [""]) staleLocation.GetLeadingComments) [idLocation] :=
  ⟨by decide, rfl, rfl,
    processLocation_out_of_bounds (fileWith []) emptyTree staleLocation [idLocation]
      (by decide) rfl⟩

/-- Counterexample of C5: a location without leading comment whose two detached
comments are both empty is walked, and SetComment is called for it. -/
theorem associate_comments_two_empty_detached_walked :
    goLen twoDetachedLocation.GetLeadingComments ≤ 1 ∧
    (∀ v ∈ twoDetachedLocation.LeadingDetachedComments, goLen v ≤ 1) ∧
    associate_comments emptyTree ⟨["OrderFile"], [fileWith [twoDetachedLocation]]⟩
      = .ok ⟨[(["OrderFile", "Order"], "")], [([4, 0], orderFile)]⟩ :=
  ⟨by decide, by decide, rfl⟩

/-- C5, amended. For every source-location record whose leading comment has length
at most 1 and which has no leading detached comment or a single one of length at
most 1, associate_comments never invokes walkNextStruct for that record and never
calls SetComment for it: the record leaves the run as it was, also when the walker
would panic on its path. -/
theorem processLocation_trivial (file : FileDescriptorProto) (dt : DocTree)
    (location : Location) (more : List Location)
    (hlead : goLen location.GetLeadingComments ≤ 1)
    (hdetached : location.LeadingDetachedComments = [] ∨
      ∃ v, location.LeadingDetachedComments = [v] ∧ goLen v ≤ 1) :
    processLocation file dt location = .ok dt ∧
    processLocations file dt (location :: more) = processLocations file dt more := by
  have hcount : location.LeadingDetachedComments.length ≤ 1 := by
    rcases hdetached with h | ⟨v, h, _⟩
    · simp [h]
    · simp [h]
  have hp : processLocation file dt location = .ok dt := by
    have hnot : ¬ (goLen location.GetLeadingComments > 1 ∨
        location.LeadingDetachedComments.length > 1) := by omega
    simp only [processLocation, hnot, if_false]
  refine ⟨hp, ?_⟩
  rw [processLocations, hp]

/-- Witness of C5, amended: a location whose leading comment and single detached
comment are one line break each, with a path that the walker rejects, is passed
over. -/
theorem processLocation_trivial_witness :
    goLen blankLocation.GetLeadingComments ≤ 1 ∧
    (blankLocation.LeadingDetachedComments = [] ∨
      ∃ v, blankLocation.LeadingDetachedComments = [v] ∧ goLen v ≤ 1) ∧
    walkNextStruct blankLocation.Path (fileWith []).reflected = .error (.err (.notFound 9)) ∧
    processLocation (fileWith []) emptyTree blankLocation = .ok emptyTree ∧
    processLocations (fileWith []) emptyTree (blankLocation :: [idLocation])
      = processLocations (fileWith []) emptyTree [idLocation] :=
  ⟨by decide, Or.inr ⟨"\n", rfl, by decide⟩, rfl,
    processLocation_trivial (fileWith []) emptyTree blankLocation [idLocation]
      (by decide) (Or.inr ⟨"\n", rfl, by decide⟩)⟩

theorem skipFlag_foldl (name : String) (FileToGenerate : List String) (b : Bool) :
    FileToGenerate.foldl (fun skip gen => if name = gen then false else skip) b
      = (b && !decide (name ∈ FileToGenerate)) := by
  induction FileToGenerate generalizing b with
  | nil => simp
  | cons gen more ih =>
    rw [List.foldl_cons, ih]
    by_cases h : name = gen
    · simp [h]
    · simp [h]

theorem skipFlag_eq (name : String) (FileToGenerate : List String) :
    skipFlag FileToGenerate name = !decide (name ∈ FileToGenerate) := by
  unfold skipFlag
  rw [skipFlag_foldl]
  simp

theorem processFile_skipped (FileToGenerate : List String) (dt : DocTree)
    (file : FileDescriptorProto) (h : file.GetName ∉ FileToGenerate) :
    processFile FileToGenerate dt file = .ok dt := by
  simp [processFile, skipFlag_eq, h]

theorem processFile_generated (FileToGenerate : List String) (dt : DocTree)
    (file : FileDescriptorProto) (h : file.GetName ∈ FileToGenerate) :
    processFile FileToGenerate dt file = processLocations file dt file.locations := by
  simp [processFile, skipFlag_eq, h]

theorem processFiles_filter (FileToGenerate : List String) (files : List FileDescriptorProto) :
    ∀ dt : DocTree, processFiles FileToGenerate dt files =
      processEvery dt (files.filter (fun file => decide (file.GetName ∈ FileToGenerate))) := by
  induction files with
  | nil => intro dt; rfl
  | cons file more ih =>
    intro dt
    by_cases h : file.GetName ∈ FileToGenerate
    · have hf : (file :: more).filter (fun file => decide (file.GetName ∈ FileToGenerate))
          = file :: more.filter (fun file => decide (file.GetName ∈ FileToGenerate)) := by
        simp [List.filter_cons, h]
      rw [hf, processFiles, processEvery, processFile_generated FileToGenerate dt file h]
      cases processLocations file dt file.locations with
      | error p => rfl
      | ok dt1 => exact ih dt1
    · have hf : (file :: more).filter (fun file => decide (file.GetName ∈ FileToGenerate))
          = more.filter (fun file => decide (file.GetName ∈ FileToGenerate)) := by
        simp [List.filter_cons, h]
      rw [hf, processFiles, processFile_skipped FileToGenerate dt file h]
      exact ih dt

/-- C6. For every request, associate_comments handles the source-location records
of a file only if the name of the file equals some entry of FileToGenerate. For a
file whose name is not in that set no record is walked and no SetComment call is
made, whatever its records contain. A file whose name is in the set is handled
exactly once, also when the name is listed several times: the run is the run over
the files whose name is in the set, each handled once. -/
theorem associate_comments_generate_set (req : CodeGeneratorRequest) (dt : DocTree) :
    associate_comments dt req =
      processEvery dt
        (req.ProtoFile.filter (fun file => decide (file.GetName ∈ req.FileToGenerate)))
    ∧ (∀ file : FileDescriptorProto, file.GetName ∉ req.FileToGenerate →
        processFile req.FileToGenerate dt file = .ok dt)
    ∧ (∀ file : FileDescriptorProto, file.GetName ∈ req.FileToGenerate →
        processFile req.FileToGenerate dt file = processLocations file dt file.locations) :=
  ⟨processFiles_filter req.FileToGenerate req.ProtoFile dt,
    fun file h => processFile_skipped req.FileToGenerate dt file h,
    fun file h => processFile_generated req.FileToGenerate dt file h⟩

/-- Witness of C6: the name OrderFile is listed twice and the file is handled
once. The dependency is passed over although its first record would make the
walker panic. -/
theorem associate_comments_generate_set_witness :
    depFile.GetName ∉ ["OrderFile", "OrderFile"] ∧
    (fileWith [idLocation]).GetName ∈ ["OrderFile", "OrderFile"] ∧
    processLocations depFile emptyTree depFile.locations = .error (.err (.notFound 9)) ∧
    associate_comments emptyTree
        ⟨["OrderFile", "OrderFile"], [depFile, fileWith [idLocation]]⟩
      = .ok ⟨[(["OrderFile", "Order", "id"], " the order id\n")],
             [([4, 0, 2, 0], orderFile)]⟩ ∧
    associate_comments emptyTree
        ⟨["OrderFile", "OrderFile"], [depFile, fileWith [idLocation]]⟩
      = processEvery emptyTree
          (([depFile, fileWith [idLocation]] : List FileDescriptorProto).filter
            (fun file => decide (file.GetName ∈ ["OrderFile", "OrderFile"]))) :=
  ⟨by decide, by decide, rfl, rfl,
    (associate_comments_generate_set
      ⟨["OrderFile", "OrderFile"], [depFile, fileWith [idLocation]]⟩ emptyTree).1⟩

theorem processLocations_append (file : FileDescriptorProto) (before after : List Location) :
    ∀ dt : DocTree, processLocations file dt (before ++ after) =
      match processLocations file dt before with
      | .error p => .error p
      | .ok dt1 => processLocations file dt1 after := by
  induction before with
  | nil => intro dt; rfl
  | cons location more ih =>
    intro dt
    rw [List.cons_append, processLocations, processLocations]
    cases processLocation file dt location with
    | error p => rfl
    | ok dt1 => exact ih dt1

/-- C7. The collector at the failing input. The claim asks that a record of a file
in the generate set that carries a non-empty leading detached comment is walked, a
single detached comment being enough. The test of the collector compares the number
of detached comments with 1, so a location with one non-empty detached comment and
no leading comment is not walked and SetComment is not called, although the walker
would resolve its path to the chain of message Order. -/
theorem associate_comments_single_detached_not_walked :
    (fileWith [oneDetachedLocation]).GetName ∈ ["OrderFile"] ∧
    (∃ v ∈ oneDetachedLocation.LeadingDetachedComments, goLen v > 1) ∧
    walkNextStruct oneDetachedLocation.Path orderFile = .ok ["OrderFile", "Order"] ∧
    processLocation (fileWith [oneDetachedLocation]) emptyTree oneDetachedLocation
      = .ok emptyTree ∧
    associate_comments emptyTree ⟨["OrderFile"], [fileWith [oneDetachedLocation]]⟩
      = .ok emptyTree :=
  ⟨by decide, by decide, rfl, rfl, rfl⟩

/-- The walk of a record with a leading comment: for every record of a file in the
generate set whose leading comment has length above 1, the collector, once the
records before it are handled without a panic, invokes the walker with the path of
the record and the root of the file. A panic of the walker ends the run, and a
returned chain is passed to SetComment with the leading comment before the
remaining records are handled. -/
theorem processFile_walks_leading_comment (FileToGenerate : List String)
    (file : FileDescriptorProto) (dt dt1 : DocTree)
    (before after : List Location) (location : Location)
    (hgen : file.GetName ∈ FileToGenerate)
    (hloc : file.locations = before ++ location :: after)
    (hbefore : processLocations file dt before = .ok dt1)
    (hlead : goLen location.GetLeadingComments > 1) :
    processFile FileToGenerate dt file =
      match walkNextStruct location.Path file.reflected with
      | .error p => .error p
      | .ok name_path =>
        processLocations file
          ((dt1.noteWalk location.Path file.reflected).SetComment name_path
            location.GetLeadingComments) after := by
  have hc : goLen location.GetLeadingComments > 1 ∨
      location.LeadingDetachedComments.length > 1 := Or.inl hlead
  rw [processFile_generated FileToGenerate dt file hgen, hloc, processLocations_append,
    hbefore]
  simp only [processLocations, processLocation, hc, if_true]
  cases walkNextStruct location.Path file.reflected with
  | error p => rfl
  | ok name_path => rfl

end CommentWalker
